import Mathlib

/-!
# Verification of the `snapr` / `snapper` snapshot compositor

Shallow embedding of the map-snapshot engine of the `c1m50c/snapr`
repository.  Rust `f64` arithmetic is embedded as real arithmetic,
machine-integer casts (`as i32` / `as i64`, `floor`, `ceil`, `fract`,
`round`, `%`) are made explicit, fallible code returns `Except`.

The two crates in the repository contain historical variants of the same
modules; each definition below names the file it is translated from.
-/

namespace Snapr

/-! ## Rust numeric primitives

`rustTrunc` is the `as i64` / `as i32` cast of an `f64` (truncation toward
zero); `rustFract` is `f64::fract` (`x - x.trunc()`); `rustRound` is
`f64::round` (half away from zero); Rust's `%` on integers is the
truncated remainder `Int.tmod`. -/

noncomputable def rustTrunc (x : ℝ) : ℤ :=
  if 0 ≤ x then ⌊x⌋ else ⌈x⌉

noncomputable def rustFract (x : ℝ) : ℝ :=
  x - rustTrunc x

noncomputable def rustRound (x : ℝ) : ℤ :=
  if 0 ≤ x then ⌊x + 1/2⌋ else ⌈x - 1/2⌉

/-- Computable mirror of `rustTrunc` on rationals, used to evaluate the
embedding at concrete inputs. -/
def ratTrunc (q : ℚ) : ℤ :=
  if 0 ≤ q then ⌊q⌋ else ⌈q⌉

theorem rustTrunc_ratCast (q : ℚ) : rustTrunc (q : ℝ) = ratTrunc q := by
  unfold rustTrunc ratTrunc
  by_cases h : 0 ≤ q
  · rw [if_pos (by exact_mod_cast h), if_pos h, Rat.floor_cast]
  · rw [if_neg (by exact_mod_cast h), if_neg h, Rat.ceil_cast]

theorem rustTrunc_zero : rustTrunc 0 = 0 := by
  simp [rustTrunc]

theorem rustFract_zero : rustFract 0 = 0 := by
  simp [rustFract, rustTrunc_zero]

/-- Half-open integer range `a..b` of Rust, as a list. -/
def intRange (a b : ℤ) : List ℤ :=
  (List.range (b - a).toNat).map (fun i => a + i)

/-! ## Geometric data model

`geo::Point` is a pair of `f64` coordinates.  Throughout the repository a
geographic point is built as `geo::point!(x: latitude, y: longitude)`
(see `src/snapr-py/src/geo.rs`, `PyLocation::new`), so field `x` holds the
latitude and field `y` the longitude. -/

@[ext]
structure GeoPoint where
  x : ℝ
  y : ℝ

/-- Subtraction of `geo::Point` values is componentwise. -/
def GeoPoint.sub (a b : GeoPoint) : GeoPoint :=
  ⟨a.x - b.x, a.y - b.y⟩

/-- Constructing a geographic point from a latitude and a longitude, the
way the repository does it (`geo::point!(x: latitude, y: longitude)`). -/
def pointFromLatLng (latitude longitude : ℝ) : GeoPoint :=
  ⟨latitude, longitude⟩

/-- The `geo::Rect` type: a pair of corner coordinates with `min ≤ max` per axis. -/
structure GeoRect where
  min : GeoPoint
  max : GeoPoint

/-- Constructor `geo::Rect::new` normalizes the two corners so that
`min.x ≤ max.x` and `min.y ≤ max.y` (the `geo` crate swaps coordinates
axis-by-axis when needed). -/
noncomputable def rectNew (c1 c2 : GeoPoint) : GeoRect :=
  ⟨⟨min c1.x c2.x, min c1.y c2.y⟩, ⟨max c1.x c2.x, max c1.y c2.y⟩⟩

/-- Mapping `geo::Rect::map_coords` maps both corners and rebuilds the rectangle
through `Rect::new` (re-normalizing min/max). -/
noncomputable def rectMapCoords (f : GeoPoint → GeoPoint) (r : GeoRect) : GeoRect :=
  rectNew (f r.min) (f r.max)

/-! ## Projector

`Snapr::epsg_4326_to_epsg_3857` (`src/snapr/src/lib.rs`, lines 265-273;
the identical function is `Snapper::epsg_4326_to_epsg_3857` in
`src/snapper/src/lib.rs`, lines 167-175):

```rust
let point_as_rad = point.to_radians();
let n = (1 << zoom as i32) as f64;
geo::point!(
    x: (n * (point.y() + 180.0) / 360.0),
    y: (n * (1.0 - (point_as_rad.x().tan() + (1.0 / point_as_rad.x().cos())).ln() / PI) / 2.0)
)
```

`Point::to_radians` multiplies each coordinate by `π/180`. -/

noncomputable def epsg_4326_to_epsg_3857 (zoom : ℕ) (point : GeoPoint) : GeoPoint :=
  let rad_x : ℝ := point.x * (Real.pi / 180)
  let n : ℝ := 2 ^ zoom
  ⟨n * (point.y + 180) / 360,
   n * (1 - Real.log (Real.tan rad_x + 1 / Real.cos rad_x) / Real.pi) / 2⟩

/-- The spec's own description of the forward projection
(sentence of §4.1 / the C4 claim): longitude maps linearly to world-x as
`2^zoom * (longitude + 180) / 360`, latitude (given in radians) maps to
world-y as `2^zoom * (1 - ln(tan(lat) + 1/cos(lat)) / π) / 2`. -/
noncomputable def specWebMercatorWorld (zoom : ℕ) (longitude latitudeRad : ℝ) : ℝ × ℝ :=
  (2 ^ zoom * (longitude + 180) / 360,
   2 ^ zoom * (1 - Real.log (Real.tan latitudeRad + 1 / Real.cos latitudeRad) / Real.pi) / 2)

/-! ## Pixel projection

`Snapper::epsg_4326_to_pixel` (`src/snapper/src/lib.rs`, lines 178-191):

```rust
let epsg_3857_point =
    Self::epsg_4326_to_epsg_3857(zoom, point) - Self::epsg_4326_to_epsg_3857(zoom, center);
geo::point!(
    x: (epsg_3857_point.x().fract() * self.tile_size as f64 + self.width as f64 / 2.0).round() as i32,
    y: (epsg_3857_point.y().fract() * self.tile_size as f64 + self.height as f64 / 2.0).round() as i32,
)
``` -/

noncomputable def epsg_4326_to_pixel (tile_size width height : ℕ) (zoom : ℕ)
    (center point : GeoPoint) : ℤ × ℤ :=
  let p := (epsg_4326_to_epsg_3857 zoom point).sub (epsg_4326_to_epsg_3857 zoom center)
  (rustRound (rustFract p.x * tile_size + width / 2),
   rustRound (rustFract p.y * tile_size + height / 2))

/-- The canvas center pixel in the spec's words: `(width/2, height/2)`,
rounded to the nearest integer. -/
noncomputable def canvasCenter (width height : ℕ) : ℤ × ℤ :=
  (rustRound ((width : ℝ) / 2), rustRound ((height : ℝ) / 2))

/-! ## Claim theorems: projector -/

/-- C4: for every geographic point (constructed from a latitude and a
longitude the way the repository constructs points) and every zoom level,
`epsg_4326_to_epsg_3857` maps the longitude linearly to world-x as
`2^zoom * (longitude + 180) / 360` and the latitude (converted to
radians) to world-y as
`2^zoom * (1 - ln(tan(lat) + 1/cos(lat)) / π) / 2` — the standard
spherical Web-Mercator forward projection. -/
theorem projection_is_standard_web_mercator (zoom : ℕ) (latitude longitude : ℝ) :
    ((epsg_4326_to_epsg_3857 zoom (pointFromLatLng latitude longitude)).x,
     (epsg_4326_to_epsg_3857 zoom (pointFromLatLng latitude longitude)).y) =
      specWebMercatorWorld zoom longitude (latitude * (Real.pi / 180)) := by
  rfl

/-- C7: projecting a point against itself as the center yields the canvas
center pixel `(width/2, height/2)` (rounded to the nearest integer),
for every point, zoom level and configuration. -/
theorem pixel_of_center_is_canvas_center (tile_size width height zoom : ℕ) (p : GeoPoint) :
    epsg_4326_to_pixel tile_size width height zoom p p = canvasCenter width height := by
  unfold epsg_4326_to_pixel canvasCenter GeoPoint.sub
  simp [rustFract_zero]

/-! ## Styles and style merging

From `src/snapr/src/drawing/style.rs`.  `tiny_skia::Color` is modelled as
an RGBA quadruple; `border` widths are `f32` values, embedded as
rationals (they are only stored and compared, never computed with). -/

structure SkColor where
  r : ℕ
  g : ℕ
  b : ℕ
  a : ℕ
deriving DecidableEq

structure ColorOptions where
  foreground : SkColor
  background : SkColor
  anti_alias : Bool
  border : Option ℚ
deriving DecidableEq

/-- The `Shape` type of `point.rs`: the only variant is a circle with a radius. -/
structure Shape where
  radius : ℚ
deriving DecidableEq

/-- The `Representation` type of `point.rs` (the `Svg` variant is feature-gated;
the embedding models the always-present `Shape` variant and keeps an
abstract tag for embedded vector markup). -/
inductive Representation where
  | shape (s : Shape)
  | svg (markup : ℕ)
deriving DecidableEq

/-- A label attached to a point style (text/font/color/offset are not
inspected by any claim; an abstract identifier stands for them). -/
structure Label where
  id : ℕ
deriving DecidableEq

/-- The `PointStyle` record as used by `Style::merge_point_styles`
(`src/snapr/src/drawing/style.rs`). -/
structure PointStyle where
  color_options : ColorOptions
  representation : Representation
  label : Option Label
deriving DecidableEq

/-- The `LineStyle` record as used by `Style::merge_line_styles`
(`src/snapr/src/drawing/style.rs`). -/
structure LineStyle where
  color_options : ColorOptions
  width : ℚ
deriving DecidableEq

/-- Merge `Style::merge_point_styles` (`src/snapr/src/drawing/style.rs`,
lines 73-86): fields of `b` take priority; the optional `border` and
`label` fall back to `a`'s value via `Option::or`. -/
def merge_point_styles (a b : PointStyle) : PointStyle :=
  { color_options :=
      { foreground := b.color_options.foreground
        background := b.color_options.background
        anti_alias := b.color_options.anti_alias
        border := b.color_options.border.or a.color_options.border }
    representation := b.representation
    label := b.label.or a.label }

/-- Merge `Style::merge_line_styles` (`src/snapr/src/drawing/style.rs`,
lines 88-100). -/
def merge_line_styles (a b : LineStyle) : LineStyle :=
  { color_options :=
      { foreground := b.color_options.foreground
        background := b.color_options.background
        anti_alias := b.color_options.anti_alias
        border := b.color_options.border.or a.color_options.border }
    width := b.width }

/-! ## Snapper-side tile fetching and validation

`src/snapper/src/lib.rs`.  A decoded raster tile: width, height, and the
pixel grid (pixel values are abstract). -/

structure Tile where
  w : ℕ
  h : ℕ
  pix : ℤ → ℤ → ℕ

/-- Error type (`src/snapr/src/lib.rs` lines 33-69 /
`src/snapper/src/lib.rs` lines 21-47, the variants the claims reach). -/
inductive Error where
  | incorrectTileSize (expected received : ℕ)
  | pathConstruction
  | unknownErr (tag : ℕ)
deriving DecidableEq

/-- A snapper-style individual tile fetcher:
`fn(i32, i32, u8) -> Result<DynamicImage, Error>`. -/
def IndividualFetcher : Type :=
  ℤ → ℤ → ℕ → Except Error Tile

/-- Function `Snapper::get_tile` (`src/snapper/src/lib.rs`, lines 226-245):

```rust
let tile = (self.tile_fetcher)(x, y, zoom)?.to_rgba8();
if tile.height() != self.tile_size {
    return Err(Error::IncorrectTileSize { expected: self.tile_size, received: tile.height() });
}
if tile.width() != self.tile_size {
    return Err(Error::IncorrectTileSize { expected: self.tile_size, received: tile.height() });
}
Ok(tile)
```

Note that the second branch also reports `tile.height()` as `received`;
the `?` operator propagates a fetch error unchanged. -/
def get_tile (tile_fetcher : IndividualFetcher) (tile_size : ℕ) (x y : ℤ) (zoom : ℕ) :
    Except Error Tile :=
  match tile_fetcher x y zoom with
  | .error e => .error e
  | .ok tile =>
    if tile.h ≠ tile_size then
      .error (Error.incorrectTileSize tile_size tile.h)
    else if tile.w ≠ tile_size then
      .error (Error.incorrectTileSize tile_size tile.h)
    else
      .ok tile

/-! ## Canvas, mosaic assembly and the two fetch shapes

`src/snapr/src/lib.rs`, `Snapr::overlay_backing_tiles` (lines 316-423).
A canvas is a pixel grid; only the pixels inside the `width × height`
output rectangle are meaningful (the `image` crate clips all writes to
that rectangle). -/

def Canvas : Type :=
  ℤ → ℤ → ℕ

/-- Modelled from the spec: `image::imageops::overlay` (an external
collaborator, not part of this repository's sources) pastes the tile at
the given offset; spec §4.6 describes the paste as a direct overwrite of
the covered region. -/
def overlayImage (img : Canvas) (tile : Tile) (ox oy : ℤ) : Canvas :=
  fun px py =>
    if ox ≤ px ∧ px < ox + tile.w ∧ oy ≤ py ∧ py < oy + tile.h then
      tile.pix (px - ox) (py - oy)
    else
      img px py

/-- Pasting a list of fetched tiles (with their placement offsets) into a
canvas, in list order — the paste loop shared by both fetcher branches of
`Snapr::overlay_backing_tiles`. -/
def placeAll (tiles : List (Tile × ℤ × ℤ)) (img : Canvas) : Canvas :=
  tiles.foldl (fun im t => overlayImage im t.1 t.2.1 t.2.2) img

/-- The configuration fields of `Snapr` that tile overlaying reads. -/
structure SnaprCfg where
  tile_size : ℕ
  width : ℕ
  height : ℕ

/-- The coordinate matrix of `Snapr::overlay_backing_tiles`
(`src/snapr/src/lib.rs`, lines 322-347): half-extents in tiles, floored /
ceiled bounds around the projected center, and the row-major
`(min_x..max_x) × (min_y..max_y)` product. -/
noncomputable def coordinateMatrix (cfg : SnaprCfg) (center : GeoPoint) (zoom : ℕ) :
    List (ℤ × ℤ) :=
  let required_rows : ℝ := 0.5 * cfg.height / cfg.tile_size
  let required_columns : ℝ := 0.5 * cfg.width / cfg.tile_size
  let c := epsg_4326_to_epsg_3857 zoom center
  let min_x := ⌊c.x - required_columns⌋
  let min_y := ⌊c.y - required_rows⌋
  let max_x := ⌈c.x + required_columns⌉
  let max_y := ⌈c.y + required_rows⌉
  (intRange min_x max_x).flatMap (fun x => (intRange min_y max_y).map (fun y => (x, y)))

/-- The index wrapping of the individual branch:
`(x + n) % n` with `n = 1 << zoom` and Rust's truncated `%`
(`src/snapr/src/lib.rs`, line 358). -/
def wrapIndex (zoom : ℕ) (x : ℤ) : ℤ :=
  Int.tmod (x + 2 ^ zoom) (2 ^ zoom)

/-- The real-valued placement offset of a tile along one axis
(`src/snapr/src/lib.rs`, lines 361-366 and 411-415):
`(tileIndex - projectedCenter) * tile_size + dimension / 2`. -/
noncomputable def tileOffset (i : ℤ) (c : ℝ) (tile_size dim : ℕ) : ℝ :=
  ((i : ℝ) - c) * tile_size + (dim : ℝ) / 2

/-- The closure `x_y_to_tile` of the `TileFetcher::Individual` branch
(`src/snapr/src/lib.rs`, lines 355-369): fetch the tile at the wrapped
index, and compute its placement offset
`(index - projected_center) * tile_size + dimension / 2`, cast `as i64`
(truncation toward zero). -/
noncomputable def x_y_to_tile (cfg : SnaprCfg) (tile_fetcher : IndividualFetcher)
    (c : GeoPoint) (zoom : ℕ) (xy : ℤ × ℤ) : Except Error (Tile × ℤ × ℤ) :=
  match tile_fetcher (wrapIndex zoom xy.1) (wrapIndex zoom xy.2) zoom with
  | .error e => .error e
  | .ok tile =>
    .ok (tile,
      rustTrunc (tileOffset xy.1 c.x cfg.tile_size cfg.width),
      rustTrunc (tileOffset xy.2 c.y cfg.tile_size cfg.height))

/-- Function `Snapr::overlay_backing_tiles`, `TileFetcher::Individual` branch,
sequential (non-`rayon`) loop (`src/snapr/src/lib.rs`, lines 388-399):
for each matrix coordinate, fetch-and-place.  Note: there is no tile-size
validation in this function. -/
noncomputable def overlayLoop (cfg : SnaprCfg) (tile_fetcher : IndividualFetcher)
    (c : GeoPoint) (zoom : ℕ) : List (ℤ × ℤ) → Canvas → Except Error Canvas
  | [], img => .ok img
  | xy :: rest, img =>
    match x_y_to_tile cfg tile_fetcher c zoom xy with
    | .error e => .error e
    | .ok t => overlayLoop cfg tile_fetcher c zoom rest (overlayImage img t.1 t.2.1 t.2.2)

noncomputable def overlay_backing_tiles_individual (cfg : SnaprCfg)
    (tile_fetcher : IndividualFetcher) (image : Canvas) (center : GeoPoint) (zoom : ℕ) :
    Except Error Canvas :=
  overlayLoop cfg tile_fetcher (epsg_4326_to_epsg_3857 zoom center) zoom
    (coordinateMatrix cfg center zoom) image

/-- The collected tile list of the `rayon` variant of the individual
branch (`src/snapr/src/lib.rs`, lines 371-386): all `x_y_to_tile` results
are gathered before any canvas write (this embedding keeps the
deterministic all-success case; a fetch error fails the batch). -/
noncomputable def collectTiles (cfg : SnaprCfg) (tile_fetcher : IndividualFetcher)
    (c : GeoPoint) (zoom : ℕ) : List (ℤ × ℤ) → Except Error (List (Tile × ℤ × ℤ))
  | [] => .ok []
  | xy :: rest =>
    match x_y_to_tile cfg tile_fetcher c zoom xy with
    | .error e => .error e
    | .ok t =>
      match collectTiles cfg tile_fetcher c zoom rest with
      | .error e => .error e
      | .ok ts => .ok (t :: ts)

noncomputable def fetched_tiles (cfg : SnaprCfg) (tile_fetcher : IndividualFetcher)
    (center : GeoPoint) (zoom : ℕ) : Except Error (List (Tile × ℤ × ℤ)) :=
  collectTiles cfg tile_fetcher (epsg_4326_to_epsg_3857 zoom center) zoom
    (coordinateMatrix cfg center zoom)

/-- A snapr batch tile fetcher:
`fn(&[(i32, i32)], u8) -> Result<Vec<(i32, i32, DynamicImage)>, Error>`. -/
def BatchFetcher : Type :=
  List (ℤ × ℤ) → ℕ → Except Error (List (ℤ × ℤ × Tile))

/-- Function `Snapr::overlay_backing_tiles`, `TileFetcher::Batch` branch
(`src/snapr/src/lib.rs`, lines 402-419): the raw coordinate matrix is
handed to the batch fetcher, and each returned tile is placed at the
offset computed from its reported index.  Note: no index wrapping and no
tile-size validation happen in this branch. -/
noncomputable def overlay_backing_tiles_batch (cfg : SnaprCfg) (tile_fetcher : BatchFetcher)
    (image : Canvas) (center : GeoPoint) (zoom : ℕ) : Except Error Canvas :=
  match tile_fetcher (coordinateMatrix cfg center zoom) zoom with
  | .error e => .error e
  | .ok tiles =>
    .ok (tiles.foldl
      (fun img t =>
        overlayImage img t.2.2
          (rustTrunc (tileOffset t.1 (epsg_4326_to_epsg_3857 zoom center).x
            cfg.tile_size cfg.width))
          (rustTrunc (tileOffset t.2.1 (epsg_4326_to_epsg_3857 zoom center).y
            cfg.tile_size cfg.height)))
      image)

/-- The tile indices the `TileFetcher::Batch` branch passes to the
fetcher: the raw coordinate matrix (`src/snapr/src/lib.rs`, line 410). -/
noncomputable def passedIndicesBatch (cfg : SnaprCfg) (center : GeoPoint) (zoom : ℕ) :
    List (ℤ × ℤ) :=
  coordinateMatrix cfg center zoom

/-- The tile indices the `TileFetcher::Individual` branch passes to the
fetcher: the wrapped matrix (`src/snapr/src/lib.rs`, line 358). -/
noncomputable def passedIndicesIndividual (cfg : SnaprCfg) (center : GeoPoint) (zoom : ℕ) :
    List (ℤ × ℤ) :=
  (coordinateMatrix cfg center zoom).map (fun p => (wrapIndex zoom p.1, wrapIndex zoom p.2))

/-! ## Helper lemmas for evaluating the embedding at concrete inputs -/

theorem rustTruncEqNonneg {x : ℝ} {z : ℤ} (h0 : 0 ≤ x) (h1 : (z : ℝ) ≤ x) (h2 : x < z + 1) :
    rustTrunc x = z := by
  rw [rustTrunc, if_pos h0, Int.floor_eq_iff]
  exact ⟨h1, h2⟩

theorem rustTruncEqNeg {x : ℝ} {z : ℤ} (h0 : x < 0) (h1 : (z : ℝ) - 1 < x) (h2 : x ≤ z) :
    rustTrunc x = z := by
  rw [rustTrunc, if_neg (not_le.mpr h0), Int.ceil_eq_iff]
  exact ⟨h1, h2⟩

theorem ceilEq {x : ℝ} {z : ℤ} (h1 : (z : ℝ) - 1 < x) (h2 : x ≤ z) : ⌈x⌉ = z := by
  rw [Int.ceil_eq_iff]
  exact ⟨h1, h2⟩

/-- At latitude `0` the Mercator latitude term vanishes
(`ln(tan 0 + 1/cos 0) = ln 1 = 0`), so the projected world point is
`(2^zoom * (lng + 180) / 360, 2^zoom / 2)`. -/
theorem epsg3857_lat_zero (zoom : ℕ) (lng : ℝ) :
    epsg_4326_to_epsg_3857 zoom ⟨0, lng⟩ =
      ⟨2 ^ zoom * (lng + 180) / 360, 2 ^ zoom / 2⟩ := by
  unfold epsg_4326_to_epsg_3857
  ext
  · rfl
  · simp [Real.tan_zero, Real.cos_zero, Real.log_one]

/-! ## Claim theorems: style merging (C8) -/

/-- A point style with the repository's default colors and the given
optional border width, used to state the spec's merge examples. -/
def pointStyleWithBorder (border : Option ℚ) : PointStyle :=
  { color_options :=
      { foreground := ⟨248, 248, 248, 255⟩
        background := ⟨26, 26, 26, 255⟩
        anti_alias := true
        border := border }
    representation := .shape ⟨4⟩
    label := none }

/-- C8: the per-kind style merge is right-biased and associative.  For
point styles and line styles alike: the merged optional `border` is `b`'s
border when present and otherwise `a`'s (`{border: Some 4} ⊕ {border: None}`
gives `Some 4`, `{border: Some 4} ⊕ {border: Some 2}` gives `Some 2`),
every non-optional field takes `b`'s value, and merging is associative. -/
theorem style_merge_right_biased_assoc :
    (∀ a b : PointStyle,
        (merge_point_styles a b).color_options.border
            = b.color_options.border.or a.color_options.border
      ∧ (merge_point_styles a b).color_options.foreground = b.color_options.foreground
      ∧ (merge_point_styles a b).color_options.background = b.color_options.background
      ∧ (merge_point_styles a b).color_options.anti_alias = b.color_options.anti_alias
      ∧ (merge_point_styles a b).representation = b.representation)
  ∧ (merge_point_styles (pointStyleWithBorder (some 4))
        (pointStyleWithBorder none)).color_options.border = some 4
  ∧ (merge_point_styles (pointStyleWithBorder (some 4))
        (pointStyleWithBorder (some 2))).color_options.border = some 2
  ∧ (∀ a b c : PointStyle,
      merge_point_styles (merge_point_styles a b) c
        = merge_point_styles a (merge_point_styles b c))
  ∧ (∀ a b : LineStyle,
        (merge_line_styles a b).color_options.border
            = b.color_options.border.or a.color_options.border
      ∧ (merge_line_styles a b).color_options.foreground = b.color_options.foreground
      ∧ (merge_line_styles a b).width = b.width)
  ∧ (∀ a b c : LineStyle,
      merge_line_styles (merge_line_styles a b) c
        = merge_line_styles a (merge_line_styles b c)) := by
  refine ⟨fun a b => ⟨rfl, rfl, rfl, rfl, rfl⟩, rfl, rfl, fun a b c => ?_,
    fun a b => ⟨rfl, rfl, rfl⟩, fun a b c => ?_⟩
  · simp only [merge_point_styles, Option.or_assoc]
  · simp only [merge_line_styles, Option.or_assoc]

/-! ## Claim theorems: tile-size validation (C10, C1) -/

/-- C10: when a fetched tile's height equals the configured tile size but
its width does not, `Snapper::get_tile` fails with an `IncorrectTileSize`
error whose `received` field carries the tile's height — which therefore
equals `expected` — and not the mismatching width. -/
theorem get_tile_width_mismatch_reports_height
    (tile_fetcher : IndividualFetcher) (ts : ℕ) (x y : ℤ) (zoom : ℕ) (tile : Tile)
    (hfetch : tile_fetcher x y zoom = Except.ok tile)
    (hh : tile.h = ts) (hw : tile.w ≠ ts) :
    get_tile tile_fetcher ts x y zoom = Except.error (Error.incorrectTileSize ts ts) := by
  unfold get_tile
  rw [hfetch]
  simp [hh, hw]

/-- A fetcher whose tiles are `300 × 256` rasters. -/
def fetcherWide : IndividualFetcher :=
  fun _ _ _ => Except.ok ⟨300, 256, fun _ _ => 0⟩

/-- Witness for `get_tile_width_mismatch_reports_height` at a concrete
input: a `300 × 256` tile against tile size `256`. -/
theorem get_tile_width_mismatch_reports_height_witness :
    get_tile fetcherWide 256 0 0 0 = Except.error (Error.incorrectTileSize 256 256) :=
  get_tile_width_mismatch_reports_height fetcherWide 256 0 0 0
    ⟨300, 256, fun _ _ => 0⟩ rfl rfl (by decide)

/-- C1 (amended side): in the `snapper` crate's pipeline every fetched
tile is validated against the configured tile size: any mismatch in
either axis makes `Snapper::get_tile` fail with
`IncorrectTileSize{expected = tile_size, received = tile.height}` — in
particular a `128 × 128` tile against tile size `256` yields
`IncorrectTileSize{expected: 256, received: 128}`.  The `snapr` crate's
`overlay_backing_tiles` performs no such validation (see the
counterexample theorem). -/
theorem snapper_tile_size_mismatch_is_fatal :
    (∀ (tile_fetcher : IndividualFetcher) (ts : ℕ) (x y : ℤ) (zoom : ℕ) (tile : Tile),
      tile_fetcher x y zoom = Except.ok tile →
      tile.w ≠ ts ∨ tile.h ≠ ts →
      get_tile tile_fetcher ts x y zoom
        = Except.error (Error.incorrectTileSize ts tile.h))
  ∧ get_tile (fun _ _ _ => Except.ok ⟨128, 128, fun _ _ => 0⟩) 256 0 0 0
      = Except.error (Error.incorrectTileSize 256 128) := by
  constructor
  · intro tile_fetcher ts x y zoom tile hfetch hmis
    unfold get_tile
    rw [hfetch]
    by_cases hh : tile.h = ts
    · have hw : tile.w ≠ ts := by
        rcases hmis with h | h
        · exact h
        · exact absurd hh h
      simp [hh, hw]
    · simp [hh]
  · rfl

/-- A fetcher whose tiles are all `128 × 128` rasters. -/
def fetcher128 : IndividualFetcher :=
  fun _ _ _ => Except.ok ⟨128, 128, fun _ _ => 0⟩

/-- Witness for `snapper_tile_size_mismatch_is_fatal` at a concrete
input: a `128 × 128` tile against tile size `256`. -/
theorem snapper_tile_size_mismatch_is_fatal_witness :
    get_tile fetcher128 256 1 1 0 = Except.error (Error.incorrectTileSize 256 128) :=
  snapper_tile_size_mismatch_is_fatal.1 fetcher128 256 1 1 0
    ⟨128, 128, fun _ _ => 0⟩ rfl (Or.inl (by decide))

/-- The snapshot configuration `tile_size = 256`, `width = height = 1`
(its coordinate matrix is the single tile `(0, 0)` at zoom `0`). -/
def cfg1 : SnaprCfg := ⟨256, 1, 1⟩

/-- The geographic origin: latitude `0`, longitude `0`. -/
noncomputable def geoOrigin : GeoPoint := ⟨0, 0⟩

/-- The all-zero base canvas. -/
def base0 : Canvas := fun _ _ => 0

theorem epsg3857_origin_zoom0 : epsg_4326_to_epsg_3857 0 geoOrigin = ⟨1/2, 1/2⟩ := by
  rw [show geoOrigin = (⟨0, 0⟩ : GeoPoint) from rfl, epsg3857_lat_zero]
  ext <;> norm_num

theorem coordinateMatrix_cfg1 : coordinateMatrix cfg1 geoOrigin 0 = [(0, 0)] := by
  simp only [coordinateMatrix, epsg3857_origin_zoom0, cfg1]
  norm_num
  rw [show ⌈(257/512 : ℝ)⌉ = 1 from ceilEq (by norm_num) (by norm_num)]
  decide

/-- C1 (counterexample): the `snapr` crate's tile overlay performs no
tile-size validation — with configured tile size `256`, a fetcher that
returns `128 × 128` tiles makes `overlay_backing_tiles` succeed (no
`IncorrectTileSize`, a raster is produced) even though every returned
tile mismatches the configured size. -/
theorem snapr_accepts_mismatched_tile_size :
    (fetcher128 0 0 0 = Except.ok ⟨128, 128, fun _ _ => 0⟩
      ∧ (128 : ℕ) ≠ cfg1.tile_size)
  ∧ (overlay_backing_tiles_individual cfg1 fetcher128 base0 geoOrigin 0).isOk = true := by
  refine ⟨⟨rfl, by decide⟩, ?_⟩
  unfold overlay_backing_tiles_individual
  rw [coordinateMatrix_cfg1]
  rfl

/-! ## Claim theorems: tile index wrapping (C2) -/

/-- The snapshot configuration `tile_size = 256`, `width = height = 600`
(the repository's nearly-default output size). -/
def cfg2 : SnaprCfg := ⟨256, 600, 600⟩

theorem epsg3857_origin_zoom1 : epsg_4326_to_epsg_3857 1 geoOrigin = ⟨1, 1⟩ := by
  rw [show geoOrigin = (⟨0, 0⟩ : GeoPoint) from rfl, epsg3857_lat_zero]
  ext <;> norm_num

theorem coordinateMatrix_cfg2 :
    coordinateMatrix cfg2 geoOrigin 1 =
      [(-1, -1), (-1, 0), (-1, 1), (-1, 2),
       (0, -1), (0, 0), (0, 1), (0, 2),
       (1, -1), (1, 0), (1, 1), (1, 2),
       (2, -1), (2, 0), (2, 1), (2, 2)] := by
  simp only [coordinateMatrix, epsg3857_origin_zoom1, cfg2]
  norm_num
  rw [show ⌈(139/64 : ℝ)⌉ = 3 from ceilEq (by norm_num) (by norm_num)]
  decide

/-- C2 (counterexample): the `TileFetcher::Batch` branch passes the raw,
unwrapped coordinate matrix to the fetcher.  With tile size `256`, output
`600 × 600`, center at the origin and zoom `1`, the batch fetcher
receives the tile index `(-1, -1)`, which lies outside `[0, 2^1)`. -/
theorem batch_fetcher_receives_unwrapped_index :
    ((-1, -1) : ℤ × ℤ) ∈ passedIndicesBatch cfg2 geoOrigin 1
  ∧ ¬ (0 ≤ (-1 : ℤ) ∧ (-1 : ℤ) < 2 ^ 1) := by
  constructor
  · simp only [passedIndicesBatch]
    rw [coordinateMatrix_cfg2]
    decide
  · decide

/-- C2 (amended): the `TileFetcher::Individual` branch wraps each tile
index through `(x + 2^zoom) % 2^zoom` (Rust's truncated `%`) before
invoking the fetcher, which yields an in-range index for every raw index
`≥ -2^zoom` — in particular a raw `x = -1` reaches the fetcher as
`2^zoom - 1`; the `TileFetcher::Batch` branch passes the raw coordinate
matrix unchanged. -/
theorem tile_index_wrapping_amended (cfg : SnaprCfg) (center : GeoPoint) (zoom : ℕ) :
    passedIndicesBatch cfg center zoom = coordinateMatrix cfg center zoom
  ∧ passedIndicesIndividual cfg center zoom
      = (coordinateMatrix cfg center zoom).map
          (fun p => (wrapIndex zoom p.1, wrapIndex zoom p.2))
  ∧ ∀ x : ℤ, -(2 ^ zoom) ≤ x →
      0 ≤ wrapIndex zoom x ∧ wrapIndex zoom x < 2 ^ zoom
        ∧ (x = -1 → wrapIndex zoom x = 2 ^ zoom - 1) := by
  refine ⟨rfl, rfl, fun x hx => ?_⟩
  have hn : (0 : ℤ) < 2 ^ zoom := by positivity
  have hx0 : (0 : ℤ) ≤ x + 2 ^ zoom := by linarith
  rw [wrapIndex, Int.tmod_eq_emod hx0 (le_of_lt hn)]
  refine ⟨Int.emod_nonneg _ (ne_of_gt hn), Int.emod_lt_of_pos _ hn, fun hx1 => ?_⟩
  subst hx1
  rw [Int.emod_eq_of_lt (by linarith) (by linarith)]
  ring

/-- Witness for `tile_index_wrapping_amended`: at zoom `1` the raw index
`-1` satisfies the range hypothesis and wraps to `2^1 - 1 = 1`. -/
theorem tile_index_wrapping_amended_witness :
    (-(2 ^ 1) : ℤ) ≤ -1
  ∧ (0 ≤ wrapIndex 1 (-1) ∧ wrapIndex 1 (-1) < 2 ^ 1
      ∧ ((-1 : ℤ) = -1 → wrapIndex 1 (-1) = 2 ^ 1 - 1)) :=
  ⟨by decide, (tile_index_wrapping_amended cfg2 geoOrigin 1).2.2 (-1) (by decide)⟩

/-! ## Zoom selector

`Snapr::zoom_from_geometries` (`src/snapr/src/lib.rs`, lines 282-309):

```rust
let mut zoom = 1;
for level in (0..=max_zoom).rev() {
    let bounding_box = bounding_box.map_coords(|coords| { .. epsg_4326_to_epsg_3857(level, ..) .. });
    let distance = geo::coord! {
        x: bounding_box.max().x - bounding_box.min().x,
        y: bounding_box.min().y - bounding_box.max().y } * self.tile_size as f64;
    let dimensions = geo::point!(x: self.width as f64, y: self.height as f64).0;
    if distance.x > dimensions.x || distance.y > dimensions.y { continue; }
    zoom = level;
    break;
}
zoom
```

`distanceX` / `distanceY` below are the two components of `distance`;
note that `distance.y` is `min.y - max.y` of the re-normalized mapped
rectangle. -/

noncomputable def distanceX (tile_size : ℕ) (bounding_box : GeoRect) (level : ℕ) : ℝ :=
  ((rectMapCoords (fun c => epsg_4326_to_epsg_3857 level c) bounding_box).max.x
    - (rectMapCoords (fun c => epsg_4326_to_epsg_3857 level c) bounding_box).min.x)
    * tile_size

noncomputable def distanceY (tile_size : ℕ) (bounding_box : GeoRect) (level : ℕ) : ℝ :=
  ((rectMapCoords (fun c => epsg_4326_to_epsg_3857 level c) bounding_box).min.y
    - (rectMapCoords (fun c => epsg_4326_to_epsg_3857 level c) bounding_box).max.y)
    * tile_size

open Classical in
/-- The `for level in (0..=max_zoom).rev()` loop, over an explicit
descending list of candidate levels; `[]` yields the initial `zoom = 1`. -/
noncomputable def zoomLoop (tile_size width height : ℕ) (bounding_box : GeoRect) :
    List ℕ → ℕ
  | [] => 1
  | level :: rest =>
    if distanceX tile_size bounding_box level > (width : ℝ)
        ∨ distanceY tile_size bounding_box level > (height : ℝ) then
      zoomLoop tile_size width height bounding_box rest
    else
      level

noncomputable def zoom_from_geometries (tile_size width height : ℕ) (bounding_box : GeoRect)
    (max_zoom : ℕ) : ℕ :=
  zoomLoop tile_size width height bounding_box ((List.range (max_zoom + 1)).reverse)

/-- The spec's vertical pixel extent: `(maxWorldY - minWorldY) × tileSize`
("similarly for y"), a non-negative quantity. -/
noncomputable def specExtentY (tile_size : ℕ) (bounding_box : GeoRect) (level : ℕ) : ℝ :=
  ((rectMapCoords (fun c => epsg_4326_to_epsg_3857 level c) bounding_box).max.y
    - (rectMapCoords (fun c => epsg_4326_to_epsg_3857 level c) bounding_box).min.y)
    * tile_size

open Classical in
/-- The zoom-selection algorithm as the spec's words state it (the C5
claim): accept the first level whose pixel extent fits within the output
width and height in both axes; fall back to `1`. -/
noncomputable def specZoomLoop (tile_size width height : ℕ) (bounding_box : GeoRect) :
    List ℕ → ℕ
  | [] => 1
  | level :: rest =>
    if distanceX tile_size bounding_box level ≤ (width : ℝ)
        ∧ specExtentY tile_size bounding_box level ≤ (height : ℝ) then
      level
    else
      specZoomLoop tile_size width height bounding_box rest

noncomputable def specZoomSelect (tile_size width height : ℕ) (bounding_box : GeoRect)
    (max_zoom : ℕ) : ℕ :=
  specZoomLoop tile_size width height bounding_box ((List.range (max_zoom + 1)).reverse)

open Classical in
/-- The amended description of the code's selection: only the horizontal
extent constrains the choice (the vertical comparison of the code is
`min.y - max.y > height`, which never holds). -/
noncomputable def amendedZoomLoop (tile_size width : ℕ) (bounding_box : GeoRect) :
    List ℕ → ℕ
  | [] => 1
  | level :: rest =>
    if distanceX tile_size bounding_box level > (width : ℝ) then
      amendedZoomLoop tile_size width bounding_box rest
    else
      level

noncomputable def amendedZoomSelect (tile_size width : ℕ) (bounding_box : GeoRect)
    (max_zoom : ℕ) : ℕ :=
  amendedZoomLoop tile_size width bounding_box ((List.range (max_zoom + 1)).reverse)

/-! ### Generic facts about the zoom loop -/

theorem rectMapCoords_min_le_max_y (f : GeoPoint → GeoPoint) (r : GeoRect) :
    (rectMapCoords f r).min.y ≤ (rectMapCoords f r).max.y :=
  min_le_max

theorem rectMapCoords_min_le_max_x (f : GeoPoint → GeoPoint) (r : GeoRect) :
    (rectMapCoords f r).min.x ≤ (rectMapCoords f r).max.x :=
  min_le_max

/-- Component `distance.y` is never positive: the mapped rectangle is re-normalized
by `Rect::new`, so `min.y ≤ max.y`. -/
theorem distanceY_nonpos (tile_size : ℕ) (bounding_box : GeoRect) (level : ℕ) :
    distanceY tile_size bounding_box level ≤ 0 := by
  unfold distanceY
  have h := rectMapCoords_min_le_max_y
    (fun c => epsg_4326_to_epsg_3857 level c) bounding_box
  have ht : (0 : ℝ) ≤ tile_size := Nat.cast_nonneg _
  nlinarith

/-- C5 (amended): the zoom selection equals the width-only selection —
the vertical comparison never rejects a level, because the code compares
`min.y - max.y` (never positive) against the height. -/
theorem zoom_selection_ignores_height (tile_size width height : ℕ) (bounding_box : GeoRect)
    (max_zoom : ℕ) :
    zoom_from_geometries tile_size width height bounding_box max_zoom
      = amendedZoomSelect tile_size width bounding_box max_zoom := by
  unfold zoom_from_geometries amendedZoomSelect
  induction ((List.range (max_zoom + 1)).reverse) with
  | nil => rfl
  | cons level rest ih =>
    simp only [zoomLoop, amendedZoomLoop]
    have hy : ¬ distanceY tile_size bounding_box level > (height : ℝ) := by
      have h1 := distanceY_nonpos tile_size bounding_box level
      have h2 : (0 : ℝ) ≤ height := Nat.cast_nonneg _
      linarith
    by_cases hx : distanceX tile_size bounding_box level > (width : ℝ)
    · rw [if_pos (Or.inl hx), if_pos hx, ih]
    · rw [if_neg ?_, if_neg hx]
      tauto

/-! ### A bounding box that is degenerate in longitude

`bbC5` spans latitudes `0..60` at the fixed longitude `10`.  Its
projected horizontal extent is `0` at every level, while its vertical
extent at level `z` is `128 · 2^z · log(√3 + 2) / π` pixels (with tile
size `256`). -/

noncomputable def bbC5 : GeoRect := ⟨⟨0, 10⟩, ⟨60, 10⟩⟩

theorem log_sqrt3_add_two_gt : (5/4 : ℝ) < Real.log (Real.sqrt 3 + 2) := by
  have hpos : (0 : ℝ) < Real.sqrt 3 + 2 := by positivity
  rw [Real.lt_log_iff_exp_lt hpos]
  have hs : (13/14 : ℝ) < Real.sqrt 3 := by
    rw [show (13/14 : ℝ) = Real.sqrt ((13/14)^2) from (Real.sqrt_sq (by norm_num)).symm]
    apply Real.sqrt_lt_sqrt (by positivity)
    norm_num
  have h4 : Real.exp (5/4) ^ 4 = Real.exp 5 := by
    rw [← Real.exp_nat_mul]
    norm_num
  have h5 : Real.exp 5 = Real.exp 1 ^ 5 := by
    rw [← Real.exp_nat_mul]
    norm_num
  have he : Real.exp 1 ^ 5 < 149 := by
    have h : Real.exp 1 ^ 5 < (2.7182818286 : ℝ) ^ 5 := by
      gcongr
      · linarith [Real.exp_one_lt_d9]
    calc Real.exp 1 ^ 5 < (2.7182818286 : ℝ) ^ 5 := h
    _ < 149 := by norm_num
  have hb : (149 : ℝ) ≤ (Real.sqrt 3 + 2) ^ 4 := by
    have h3 : Real.sqrt 3 ^ 2 = 3 := Real.sq_sqrt (by norm_num)
    nlinarith [Real.sqrt_nonneg 3]
  have hlt : Real.exp (5/4) ^ 4 < (Real.sqrt 3 + 2) ^ 4 := by
    rw [h4, h5]
    linarith
  exact lt_of_pow_lt_pow_left₀ 4 (by positivity) hlt

theorem log_sqrt3_add_two_lt : Real.log (Real.sqrt 3 + 2) < 3/2 := by
  have hpos : (0 : ℝ) < Real.sqrt 3 + 2 := by positivity
  rw [Real.log_lt_iff_lt_exp hpos]
  have h3 : Real.sqrt 3 ^ 2 = 3 := Real.sq_sqrt (by norm_num)
  have h2 : Real.exp (3/2) ^ 2 = Real.exp 3 := by
    rw [← Real.exp_nat_mul]
    norm_num
  have h5 : Real.exp 3 = Real.exp 1 ^ 3 := by
    rw [← Real.exp_nat_mul]
    norm_num
  have he : (20 : ℝ) < Real.exp 1 ^ 3 := by
    have h : (2.7182818283 : ℝ) ^ 3 < Real.exp 1 ^ 3 := by
      gcongr
      · linarith [Real.exp_one_gt_d9]
    calc (20 : ℝ) < (2.7182818283 : ℝ) ^ 3 := by norm_num
    _ < Real.exp 1 ^ 3 := h
  have hs : Real.sqrt 3 < 1.8 := by
    nlinarith [Real.sqrt_nonneg 3, h3]
  have hlt : (Real.sqrt 3 + 2) ^ 2 < Real.exp (3/2) ^ 2 := by
    rw [h2, h5]
    nlinarith
  exact lt_of_pow_lt_pow_left₀ 2 (by positivity) hlt

theorem log_sqrt3_add_two_nonneg : (0 : ℝ) ≤ Real.log (Real.sqrt 3 + 2) :=
  Real.log_nonneg (by nlinarith [Real.sqrt_nonneg 3])

/-- The Mercator image of the corner `(lat 60, lng 10)`:
`tan(π/3) + 1/cos(π/3) = √3 + 2`. -/
theorem epsg3857_bbC5_corner (z : ℕ) :
    epsg_4326_to_epsg_3857 z ⟨60, 10⟩ =
      ⟨2 ^ z * 190 / 360,
       2 ^ z * (1 - Real.log (Real.sqrt 3 + 2) / Real.pi) / 2⟩ := by
  unfold epsg_4326_to_epsg_3857
  have h60 : (60 : ℝ) * (Real.pi / 180) = Real.pi / 3 := by ring
  have ht : Real.tan (Real.pi / 3) = Real.sqrt 3 := by
    rw [Real.tan_eq_sin_div_cos, Real.sin_pi_div_three, Real.cos_pi_div_three]
    ring
  ext
  · norm_num
  · simp only [h60, ht, Real.cos_pi_div_three]
    norm_num

theorem mapped_bbC5 (z : ℕ) :
    rectMapCoords (fun c => epsg_4326_to_epsg_3857 z c) bbC5 =
      ⟨⟨2 ^ z * 190 / 360, 2 ^ z * (1 - Real.log (Real.sqrt 3 + 2) / Real.pi) / 2⟩,
       ⟨2 ^ z * 190 / 360, 2 ^ z / 2⟩⟩ := by
  have h1 : epsg_4326_to_epsg_3857 z ⟨0, 10⟩ = ⟨2 ^ z * 190 / 360, 2 ^ z / 2⟩ := by
    rw [epsg3857_lat_zero]
    ext
    · norm_num
    · norm_num
  have h2 := epsg3857_bbC5_corner z
  have hy2 : 2 ^ z * (1 - Real.log (Real.sqrt 3 + 2) / Real.pi) / 2 ≤ 2 ^ z / 2 := by
    have hp : (0 : ℝ) < 2 ^ z := by positivity
    have hq : (0 : ℝ) ≤ Real.log (Real.sqrt 3 + 2) / Real.pi :=
      div_nonneg log_sqrt3_add_two_nonneg Real.pi_pos.le
    nlinarith
  simp only [bbC5, rectMapCoords, rectNew, h1, h2]
  congr 1
  · ext
    · exact min_self _
    · exact min_eq_right hy2
  · ext
    · exact max_self _
    · exact max_eq_left hy2

theorem distanceX_bbC5 (ts z : ℕ) : distanceX ts bbC5 z = 0 := by
  unfold distanceX
  rw [mapped_bbC5]
  ring

theorem specExtentY_bbC5 (z : ℕ) :
    specExtentY 256 bbC5 z = 128 * 2 ^ z * Real.log (Real.sqrt 3 + 2) / Real.pi := by
  unfold specExtentY
  rw [mapped_bbC5]
  have hπ : Real.pi ≠ 0 := ne_of_gt Real.pi_pos
  field_simp
  ring

theorem specZoomLoop_skip_list (ts w h : ℕ) (bb : GeoRect) (zs rest : List ℕ)
    (hrej : ∀ z ∈ zs,
      ¬(distanceX ts bb z ≤ (w : ℝ) ∧ specExtentY ts bb z ≤ (h : ℝ))) :
    specZoomLoop ts w h bb (zs ++ rest) = specZoomLoop ts w h bb rest := by
  induction zs with
  | nil => rfl
  | cons z zs' ih =>
    simp only [List.cons_append, specZoomLoop]
    rw [if_neg (hrej z (by simp))]
    exact ih (fun u hu => hrej u (by simp [hu]))

/-- C5 (counterexample): for the latitude-spanning, longitude-degenerate
bounding box `bbC5`, tile size `256` and a `100 × 100` output, the code
(`zoom_from_geometries`) accepts the maximum level `17` outright — its
vertical comparison can never reject — while the algorithm the claim
describes (`specZoomSelect`, fitting the extent in both axes) selects
level `0`. -/
theorem zoom_selection_spec_mismatch :
    zoom_from_geometries 256 100 100 bbC5 17 = 17
  ∧ specZoomSelect 256 100 100 bbC5 17 = 0 := by
  constructor
  · unfold zoom_from_geometries
    rw [show (List.range 18).reverse = 17 :: (List.range 17).reverse from by decide]
    simp only [zoomLoop]
    have hx : ¬ distanceX 256 bbC5 17 > ((100 : ℕ) : ℝ) := by
      rw [distanceX_bbC5]
      norm_num
    have hy : ¬ distanceY 256 bbC5 17 > ((100 : ℕ) : ℝ) := by
      have h1 := distanceY_nonpos 256 bbC5 17
      push_neg
      have h2 : ((100 : ℕ) : ℝ) = 100 := by norm_num
      linarith
    rw [if_neg (not_or.mpr ⟨hx, hy⟩)]
  · unfold specZoomSelect
    rw [show (List.range 18).reverse = (List.range' 1 17).reverse ++ [0] from by decide]
    rw [specZoomLoop_skip_list]
    · simp only [specZoomLoop]
      rw [if_pos]
      constructor
      · rw [distanceX_bbC5]
        norm_num
      · rw [specExtentY_bbC5]
        have hL := log_sqrt3_add_two_lt
        have hπ := Real.pi_gt_three
        rw [div_le_iff₀ Real.pi_pos]
        push_cast
        nlinarith
    · intro z hz
      have hz1 : 1 ≤ z := by
        have hall : ∀ u ∈ (List.range' 1 17).reverse, 1 ≤ u := by decide
        exact hall z hz
      rintro ⟨-, hey⟩
      rw [specExtentY_bbC5] at hey
      have h2z : (2 : ℝ) ≤ 2 ^ z := by
        calc (2 : ℝ) = 2 ^ 1 := (pow_one 2).symm
        _ ≤ 2 ^ z := pow_le_pow_right₀ one_le_two hz1
      have hL := log_sqrt3_add_two_gt
      have hL0 := log_sqrt3_add_two_nonneg
      have hπ := Real.pi_lt_d2
      rw [div_le_iff₀ Real.pi_pos] at hey
      push_cast at hey
      nlinarith

/-! ### A bounding box that is degenerate in latitude

`bbC6` spans longitudes `0..90` at latitude `0`; its projected
horizontal extent at level `z` is `64 · 2^z` pixels with tile size `256`,
its vertical extent is `0`. -/

noncomputable def bbC6 : GeoRect := ⟨⟨0, 0⟩, ⟨0, 90⟩⟩

theorem mapped_bbC6 (z : ℕ) :
    rectMapCoords (fun c => epsg_4326_to_epsg_3857 z c) bbC6 =
      ⟨⟨2 ^ z / 2, 2 ^ z / 2⟩, ⟨3 * 2 ^ z / 4, 2 ^ z / 2⟩⟩ := by
  have h1 : epsg_4326_to_epsg_3857 z ⟨0, 0⟩ = ⟨2 ^ z / 2, 2 ^ z / 2⟩ := by
    rw [epsg3857_lat_zero]
    ext
    · norm_num
      ring
    · norm_num
  have h2 : epsg_4326_to_epsg_3857 z ⟨0, 90⟩ = ⟨3 * 2 ^ z / 4, 2 ^ z / 2⟩ := by
    rw [epsg3857_lat_zero]
    ext
    · norm_num
      ring
    · norm_num
  have hx : (2 : ℝ) ^ z / 2 ≤ 3 * 2 ^ z / 4 := by
    have hp : (0 : ℝ) < 2 ^ z := by positivity
    nlinarith
  simp only [bbC6, rectMapCoords, rectNew, h1, h2]
  congr 1
  · ext
    · exact min_eq_left hx
    · exact min_self _
  · ext
    · exact max_eq_right hx
    · exact max_self _

theorem distanceX_bbC6 (z : ℕ) : distanceX 256 bbC6 z = 64 * 2 ^ z := by
  unfold distanceX
  rw [mapped_bbC6]
  push_cast
  ring

theorem distanceY_bbC6 (z : ℕ) : distanceY 256 bbC6 z = 0 := by
  unfold distanceY
  rw [mapped_bbC6]
  ring

theorem zoomLoop_skip_list (ts w h : ℕ) (bb : GeoRect) (zs rest : List ℕ)
    (hrej : ∀ z ∈ zs,
      distanceX ts bb z > (w : ℝ) ∨ distanceY ts bb z > (h : ℝ)) :
    zoomLoop ts w h bb (zs ++ rest) = zoomLoop ts w h bb rest := by
  induction zs with
  | nil => rfl
  | cons z zs' ih =>
    simp only [List.cons_append, zoomLoop]
    rw [if_pos (hrej z (by simp))]
    exact ih (fun u hu => hrej u (by simp [hu]))

/-- C6 (counterexample): automatic zoom selection is not monotone in the
viewport.  For `bbC6` (horizontal extent `64 · 2^z` pixels) a `100`-wide
output selects zoom `0` (the only level that fits), but shrinking the
width to `50` makes no level fit and the loop falls back to zoom `1` —
the smaller viewport gets the strictly larger zoom. -/
theorem zoom_not_monotone_in_viewport :
    zoom_from_geometries 256 100 100 bbC6 17 = 0
  ∧ zoom_from_geometries 256 50 100 bbC6 17 = 1
  ∧ ¬ (zoom_from_geometries 256 50 100 bbC6 17
        ≤ zoom_from_geometries 256 100 100 bbC6 17) := by
  have h100 : zoom_from_geometries 256 100 100 bbC6 17 = 0 := by
    unfold zoom_from_geometries
    rw [show (List.range 18).reverse = (List.range' 1 17).reverse ++ [0] from by decide]
    rw [zoomLoop_skip_list]
    · simp only [zoomLoop]
      rw [if_neg]
      push_neg
      constructor
      · rw [distanceX_bbC6]
        norm_num
      · rw [distanceY_bbC6]
        norm_num
    · intro z hz
      left
      have hz1 : 1 ≤ z := by
        have hall : ∀ u ∈ (List.range' 1 17).reverse, 1 ≤ u := by decide
        exact hall z hz
      rw [distanceX_bbC6]
      have h2z : (2 : ℝ) ≤ 2 ^ z := by
        calc (2 : ℝ) = 2 ^ 1 := (pow_one 2).symm
        _ ≤ 2 ^ z := pow_le_pow_right₀ one_le_two hz1
      push_cast
      nlinarith
  have h50 : zoom_from_geometries 256 50 100 bbC6 17 = 1 := by
    unfold zoom_from_geometries
    have hrej : ∀ z ∈ (List.range 18).reverse,
        distanceX 256 bbC6 z > ((50 : ℕ) : ℝ)
          ∨ distanceY 256 bbC6 z > ((100 : ℕ) : ℝ) := by
      intro z _
      left
      rw [distanceX_bbC6]
      have h1z : (1 : ℝ) ≤ 2 ^ z := one_le_pow₀ one_le_two
      push_cast
      nlinarith
    have h := zoomLoop_skip_list 256 50 100 bbC6 ((List.range 18).reverse) [] hrej
    rw [List.append_nil] at h
    rw [h]
    rfl
  refine ⟨h100, h50, ?_⟩
  rw [h100, h50]
  decide

/-! ### The amended monotonicity statement -/

theorem zoomLoop_result_one_or_mem (ts w h : ℕ) (bb : GeoRect) :
    ∀ zs : List ℕ, zoomLoop ts w h bb zs = 1 ∨ zoomLoop ts w h bb zs ∈ zs := by
  intro zs
  induction zs with
  | nil => exact Or.inl rfl
  | cons z rest ih =>
    simp only [zoomLoop]
    by_cases hc : distanceX ts bb z > (w : ℝ) ∨ distanceY ts bb z > (h : ℝ)
    · rw [if_pos hc]
      rcases ih with h1 | h1
      · exact Or.inl h1
      · exact Or.inr (List.mem_cons_of_mem _ h1)
    · rw [if_neg hc]
      exact Or.inr (List.mem_cons_self _ _)

theorem zoomLoop_anti (ts w h w' h' : ℕ) (bb : GeoRect) (hw : w' ≤ w) (hh : h' ≤ h) :
    ∀ zs : List ℕ, List.Pairwise (fun a b => b < a) zs →
      zoomLoop ts w' h' bb zs ≤ max (zoomLoop ts w h bb zs) 1 := by
  intro zs
  induction zs with
  | nil =>
    intro _
    simp [zoomLoop]
  | cons z rest ih =>
    intro hp
    obtain ⟨hhead, htail⟩ := List.pairwise_cons.mp hp
    simp only [zoomLoop]
    by_cases hc' : distanceX ts bb z > (w' : ℝ) ∨ distanceY ts bb z > (h' : ℝ)
    · rw [if_pos hc']
      by_cases hc : distanceX ts bb z > (w : ℝ) ∨ distanceY ts bb z > (h : ℝ)
      · rw [if_pos hc]
        exact ih htail
      · rw [if_neg hc]
        rcases zoomLoop_result_one_or_mem ts w' h' bb rest with h1 | h1
        · rw [h1]
          exact le_max_right _ _
        · exact le_max_of_le_left (le_of_lt (hhead _ h1))
    · rw [if_neg hc']
      have hc : ¬ (distanceX ts bb z > (w : ℝ) ∨ distanceY ts bb z > (h : ℝ)) := by
        push_neg at hc' ⊢
        exact ⟨le_trans hc'.1 (Nat.cast_le.mpr hw), le_trans hc'.2 (Nat.cast_le.mpr hh)⟩
      rw [if_neg hc]
      exact le_max_left _ _

/-- C6 (amended): automatic zoom selection is monotone in the viewport
whenever the larger viewport's selection is at least `1`: if shrinking
the output would only be able to move the selection to the fallback `1`,
and the larger viewport already selects `≥ 1`, the selected level cannot
increase.  (Monotonicity fails only through the fallback, as the
counterexample shows: a selection of `0` can become `1`.) -/
theorem zoom_monotone_when_selection_positive (ts w h w' h' m : ℕ) (bb : GeoRect)
    (hw : w' ≤ w) (hh : h' ≤ h)
    (h1 : 1 ≤ zoom_from_geometries ts w h bb m) :
    zoom_from_geometries ts w' h' bb m ≤ zoom_from_geometries ts w h bb m := by
  have hp : List.Pairwise (fun a b => b < a) ((List.range (m + 1)).reverse) := by
    rw [List.pairwise_reverse]
    exact List.pairwise_lt_range _
  have h := zoomLoop_anti ts w h w' h' bb hw hh ((List.range (m + 1)).reverse) hp
  unfold zoom_from_geometries at h1 ⊢
  rw [max_eq_left h1] at h
  exact h

theorem zoom_c6_width_200 : zoom_from_geometries 256 200 100 bbC6 17 = 1 := by
  unfold zoom_from_geometries
  rw [show (List.range 18).reverse = (List.range' 2 16).reverse ++ [1, 0] from by decide]
  rw [zoomLoop_skip_list]
  · simp only [zoomLoop]
    rw [if_neg]
    push_neg
    constructor
    · rw [distanceX_bbC6]
      norm_num
    · rw [distanceY_bbC6]
      norm_num
  · intro z hz
    left
    have hz2 : 2 ≤ z := by
      have hall : ∀ u ∈ (List.range' 2 16).reverse, 2 ≤ u := by decide
      exact hall z hz
    rw [distanceX_bbC6]
    have h2z : (4 : ℝ) ≤ 2 ^ z := by
      calc (4 : ℝ) = 2 ^ 2 := by norm_num
      _ ≤ 2 ^ z := pow_le_pow_right₀ one_le_two hz2
    push_cast
    nlinarith

/-- Witness for `zoom_monotone_when_selection_positive`: shrinking the
width from `200` to `150` (selection `1` at width `200`) cannot increase
the selection. -/
theorem zoom_monotone_when_selection_positive_witness :
    (150 ≤ 200 ∧ 100 ≤ 100 ∧ 1 ≤ zoom_from_geometries 256 200 100 bbC6 17)
  ∧ zoom_from_geometries 256 150 100 bbC6 17
      ≤ zoom_from_geometries 256 200 100 bbC6 17 :=
  ⟨⟨by norm_num, le_refl 100, by rw [zoom_c6_width_200]⟩,
    zoom_monotone_when_selection_positive 256 200 100 150 100 17 bbC6
      (by norm_num) (le_refl 100) (by rw [zoom_c6_width_200])⟩

/-! ## Mosaic placement and pasting order (C9) -/

/-- Two placed tiles cover disjoint canvas regions: they are separated
along the x-axis or along the y-axis. -/
def tilesDisjoint (a b : Tile × ℤ × ℤ) : Prop :=
  a.2.1 + a.1.w ≤ b.2.1 ∨ b.2.1 + b.1.w ≤ a.2.1
    ∨ a.2.2 + a.1.h ≤ b.2.2 ∨ b.2.2 + b.1.h ≤ a.2.2

theorem tilesDisjoint_symm : Symmetric tilesDisjoint := by
  intro a b h
  unfold tilesDisjoint at h ⊢
  tauto

theorem overlayImage_comm (img : Canvas) (a b : Tile × ℤ × ℤ) (hd : tilesDisjoint a b) :
    overlayImage (overlayImage img a.1 a.2.1 a.2.2) b.1 b.2.1 b.2.2
      = overlayImage (overlayImage img b.1 b.2.1 b.2.2) a.1 a.2.1 a.2.2 := by
  funext px py
  unfold overlayImage
  by_cases hb : b.2.1 ≤ px ∧ px < b.2.1 + b.1.w ∧ b.2.2 ≤ py ∧ py < b.2.2 + b.1.h
  · by_cases ha : a.2.1 ≤ px ∧ px < a.2.1 + a.1.w ∧ a.2.2 ≤ py ∧ py < a.2.2 + a.1.h
    · exfalso
      unfold tilesDisjoint at hd
      rcases hd with h | h | h | h <;> omega
    · rw [if_pos hb, if_neg ha, if_pos hb]
  · rw [if_neg hb]
    by_cases ha : a.2.1 ≤ px ∧ px < a.2.1 + a.1.w ∧ a.2.2 ≤ py ∧ py < a.2.2 + a.1.h
    · rw [if_pos ha, if_pos ha]
    · rw [if_neg ha, if_neg hb, if_neg ha]

/-- Pasting a list of pairwise-disjoint placed tiles is invariant under
permutation of the list. -/
theorem placeAll_perm_of_pairwise_disjoint :
    ∀ {l l' : List (Tile × ℤ × ℤ)}, l.Perm l' → l.Pairwise tilesDisjoint →
      ∀ img : Canvas, placeAll l img = placeAll l' img := by
  intro l l' hperm
  induction hperm with
  | nil =>
    intro _ img
    rfl
  | cons x p ih =>
    intro hd img
    simp only [placeAll, List.foldl_cons]
    exact ih (List.pairwise_cons.mp hd).2 _
  | swap x y t =>
    intro hd img
    obtain ⟨hyx, -⟩ := List.pairwise_cons.mp hd
    have hxy : tilesDisjoint y x := hyx x (List.mem_cons_self x t)
    simp only [placeAll, List.foldl_cons]
    rw [overlayImage_comm img y x hxy]
  | trans p1 p2 ih1 ih2 =>
    intro hd img
    rw [ih1 hd img, ih2 ((p1.pairwise_iff (fun h => tilesDisjoint_symm h)).mp hd) img]

/-- Truncated placement offsets of distinct indices along one axis are at
least one tile apart, provided the smaller real-valued offset is
non-negative (then `as i64` is `⌊·⌋` and `⌊v + k·ts⌋ = ⌊v⌋ + k·ts`). -/
theorem trunc_tileOffset_gap (i j : ℤ) (c : ℝ) (ts dim : ℕ) (hij : i < j)
    (hnn : 0 ≤ tileOffset i c ts dim) :
    rustTrunc (tileOffset i c ts dim) + ts ≤ rustTrunc (tileOffset j c ts dim) := by
  have hrel : tileOffset j c ts dim
      = tileOffset i c ts dim + (((j - i) * ts : ℤ) : ℝ) := by
    unfold tileOffset
    push_cast
    ring
  have hk : (ts : ℤ) ≤ (j - i) * ts := by
    have h1 : (1 : ℤ) ≤ j - i := by omega
    nlinarith [Int.ofNat_nonneg ts]
  have hnn' : 0 ≤ tileOffset j c ts dim := by
    rw [hrel]
    have : (0 : ℝ) ≤ (((j - i) * ts : ℤ) : ℝ) := by
      exact_mod_cast le_trans (Int.ofNat_nonneg ts) hk
    linarith
  rw [rustTrunc, if_pos hnn, rustTrunc, if_pos hnn', hrel, Int.floor_add_int]
  omega

/-- The list of placed tiles the assembler produces from a list of tile
indices: each index is paired with its fetched tile and the truncated
placement offsets of the code. -/
noncomputable def placedTilesOf (cfg : SnaprCfg) (tileOf : ℤ × ℤ → Tile) (c : GeoPoint)
    (idx : List (ℤ × ℤ)) : List (Tile × ℤ × ℤ) :=
  idx.map (fun p =>
    (tileOf p,
     rustTrunc (tileOffset p.1 c.x cfg.tile_size cfg.width),
     rustTrunc (tileOffset p.2 c.y cfg.tile_size cfg.height)))

/-- C9 (amended): the assembled mosaic is independent of the pasting
order, provided every real-valued placement offset is non-negative (then
distinct tile indices occupy disjoint canvas regions).  With an offset in
`(-1, 0)` the `as i64` truncation can shift a tile one pixel and make
neighbouring tiles overlap, in which case the pasting order is
observable — see the counterexample. -/
theorem mosaic_order_independent_of_nonneg_offsets (cfg : SnaprCfg)
    (tileOf : ℤ × ℤ → Tile) (c : GeoPoint) (idx : List (ℤ × ℤ))
    (hdistinct : idx.Pairwise (· ≠ ·))
    (hsize : ∀ p ∈ idx,
      (tileOf p).w = cfg.tile_size ∧ (tileOf p).h = cfg.tile_size)
    (hnn : ∀ p ∈ idx,
      0 ≤ tileOffset p.1 c.x cfg.tile_size cfg.width
        ∧ 0 ≤ tileOffset p.2 c.y cfg.tile_size cfg.height) :
    ∀ l', (placedTilesOf cfg tileOf c idx).Perm l' →
      ∀ img : Canvas, placeAll (placedTilesOf cfg tileOf c idx) img = placeAll l' img := by
  intro l' hperm img
  apply placeAll_perm_of_pairwise_disjoint hperm ?_ img
  unfold placedTilesOf
  rw [List.pairwise_map]
  have hgap : ∀ p ∈ idx, ∀ q ∈ idx, p ≠ q →
      tilesDisjoint
        (tileOf p,
         rustTrunc (tileOffset p.1 c.x cfg.tile_size cfg.width),
         rustTrunc (tileOffset p.2 c.y cfg.tile_size cfg.height))
        (tileOf q,
         rustTrunc (tileOffset q.1 c.x cfg.tile_size cfg.width),
         rustTrunc (tileOffset q.2 c.y cfg.tile_size cfg.height)) := by
    intro p hp q hq hpq
    obtain ⟨hpw, hph⟩ := hsize p hp
    obtain ⟨hqw, hqh⟩ := hsize q hq
    unfold tilesDisjoint
    simp only [hpw, hph, hqw, hqh]
    rcases lt_trichotomy p.1 q.1 with h1 | h1 | h1
    · exact Or.inl (trunc_tileOffset_gap p.1 q.1 c.x cfg.tile_size cfg.width h1 (hnn p hp).1)
    · rcases lt_trichotomy p.2 q.2 with h2 | h2 | h2
      · exact Or.inr (Or.inr (Or.inl
          (trunc_tileOffset_gap p.2 q.2 c.y cfg.tile_size cfg.height h2 (hnn p hp).2)))
      · exact absurd (Prod.ext h1 h2) hpq
      · exact Or.inr (Or.inr (Or.inr
          (trunc_tileOffset_gap q.2 p.2 c.y cfg.tile_size cfg.height h2 (hnn q hq).2)))
    · exact Or.inr (Or.inl
        (trunc_tileOffset_gap q.1 p.1 c.x cfg.tile_size cfg.width h1 (hnn q hq).1))
  exact List.Pairwise.imp_of_mem (fun hp hq hpq => hgap _ hp _ hq hpq) hdistinct

/-! ### A configuration where truncation makes adjacent tiles overlap -/

/-- Tile size `2`, output `4 × 4`. -/
def cfg9 : SnaprCfg := ⟨2, 4, 4⟩

/-- Latitude `0`, longitude `22.5`: its world x-coordinate at zoom `2` is
`9/4`, so the tile at index `1` gets the real offset `-1/2`, truncated
toward zero to `0`, overlapping the tile at index `2` (offset `3/2`,
truncated to `1`) in the pixel column `x = 1`. -/
noncomputable def center9 : GeoPoint := ⟨0, 22.5⟩

/-- A fetcher of solid `2 × 2` tiles whose pixel value is the tile's
x-index. -/
def fetcher9 : IndividualFetcher :=
  fun x _ _ => Except.ok ⟨2, 2, fun _ _ => x.toNat⟩

/-- A solid `2 × 2` tile of pixel value `k`. -/
def tileC9 (k : ℕ) : Tile := ⟨2, 2, fun _ _ => k⟩

def placedC9 : List (Tile × ℤ × ℤ) :=
  [(tileC9 1, 0, 0), (tileC9 1, 0, 2), (tileC9 2, 1, 0),
   (tileC9 2, 1, 2), (tileC9 3, 3, 0), (tileC9 3, 3, 2)]

/-- The list `placedC9` with its first and third tiles exchanged. -/
def placedC9sw : List (Tile × ℤ × ℤ) :=
  [(tileC9 2, 1, 0), (tileC9 1, 0, 2), (tileC9 1, 0, 0),
   (tileC9 2, 1, 2), (tileC9 3, 3, 0), (tileC9 3, 3, 2)]

theorem epsg3857_center9 :
    epsg_4326_to_epsg_3857 2 center9 = ⟨(9/4 : ℝ), (2 : ℝ)⟩ := by
  rw [show center9 = (⟨0, 22.5⟩ : GeoPoint) from rfl, epsg3857_lat_zero]
  ext
  · norm_num
  · norm_num

theorem coordinateMatrix_cfg9 :
    coordinateMatrix cfg9 center9 2 =
      [(1, 1), (1, 2), (2, 1), (2, 2), (3, 1), (3, 2)] := by
  simp only [coordinateMatrix, epsg3857_center9, cfg9]
  norm_num
  rw [show ⌈(13/4 : ℝ)⌉ = 4 from ceilEq (by norm_num) (by norm_num)]
  rfl

theorem fetched_tiles_cfg9 :
    fetched_tiles cfg9 fetcher9 center9 2 = Except.ok placedC9 := by
  have hx1 : rustTrunc (tileOffset 1 (9/4 : ℝ) 2 4) = 0 := by
    unfold tileOffset
    apply rustTruncEqNeg <;> push_cast <;> norm_num
  have hx2 : rustTrunc (tileOffset 2 (9/4 : ℝ) 2 4) = 1 := by
    unfold tileOffset
    apply rustTruncEqNonneg <;> push_cast <;> norm_num
  have hx3 : rustTrunc (tileOffset 3 (9/4 : ℝ) 2 4) = 3 := by
    unfold tileOffset
    apply rustTruncEqNonneg <;> push_cast <;> norm_num
  have hy1 : rustTrunc (tileOffset 1 (2 : ℝ) 2 4) = 0 := by
    unfold tileOffset
    apply rustTruncEqNonneg <;> push_cast <;> norm_num
  have hy2 : rustTrunc (tileOffset 2 (2 : ℝ) 2 4) = 2 := by
    unfold tileOffset
    apply rustTruncEqNonneg <;> push_cast <;> norm_num
  have hw1 : wrapIndex 2 1 = 1 := by decide
  have hw2 : wrapIndex 2 2 = 2 := by decide
  have hw3 : wrapIndex 2 3 = 3 := by decide
  unfold fetched_tiles
  rw [coordinateMatrix_cfg9, epsg3857_center9]
  simp only [collectTiles, x_y_to_tile, fetcher9, cfg9, hx1, hx2, hx3, hy1, hy2,
    hw1, hw2, hw3]
  rfl

theorem placedC9_perm : placedC9.Perm placedC9sw :=
  have t1 : placedC9.Perm
      ([(tileC9 1, 0, 2), (tileC9 1, 0, 0), (tileC9 2, 1, 0),
        (tileC9 2, 1, 2), (tileC9 3, 3, 0), (tileC9 3, 3, 2)] : List (Tile × ℤ × ℤ)) :=
    List.Perm.swap (tileC9 1, 0, 2) (tileC9 1, 0, 0)
      [(tileC9 2, 1, 0), (tileC9 2, 1, 2), (tileC9 3, 3, 0), (tileC9 3, 3, 2)]
  have t2 : List.Perm
      ([(tileC9 1, 0, 2), (tileC9 1, 0, 0), (tileC9 2, 1, 0),
        (tileC9 2, 1, 2), (tileC9 3, 3, 0), (tileC9 3, 3, 2)] : List (Tile × ℤ × ℤ))
      ([(tileC9 1, 0, 2), (tileC9 2, 1, 0), (tileC9 1, 0, 0),
        (tileC9 2, 1, 2), (tileC9 3, 3, 0), (tileC9 3, 3, 2)] : List (Tile × ℤ × ℤ)) :=
    List.Perm.cons (tileC9 1, 0, 2)
      (List.Perm.swap (tileC9 2, 1, 0) (tileC9 1, 0, 0)
        [(tileC9 2, 1, 2), (tileC9 3, 3, 0), (tileC9 3, 3, 2)])
  have t3 : List.Perm
      ([(tileC9 1, 0, 2), (tileC9 2, 1, 0), (tileC9 1, 0, 0),
        (tileC9 2, 1, 2), (tileC9 3, 3, 0), (tileC9 3, 3, 2)] : List (Tile × ℤ × ℤ))
      placedC9sw :=
    List.Perm.swap (tileC9 2, 1, 0) (tileC9 1, 0, 2)
      [(tileC9 1, 0, 0), (tileC9 2, 1, 2), (tileC9 3, 3, 0), (tileC9 3, 3, 2)]
  (t1.trans t2).trans t3

/-- C9 (counterexample): pasting the fetched tiles in a different order
can produce a different raster.  At `center9` the code's truncated
offsets make the tiles of x-indices `1` and `2` overlap in canvas column
`1`; pasting in matrix order leaves pixel `(1, 0)` with tile 2's color,
while pasting the transposed list leaves tile 1's color. -/
theorem mosaic_order_changes_raster :
    fetched_tiles cfg9 fetcher9 center9 2 = Except.ok placedC9
  ∧ placedC9.Perm placedC9sw
  ∧ placeAll placedC9 base0 1 0 = 2
  ∧ placeAll placedC9sw base0 1 0 = 1 :=
  ⟨fetched_tiles_cfg9, placedC9_perm, by decide, by decide⟩

/-- The tile family used in the witness below: a solid `2 × 2` tile per
index. -/
def tileW (p : ℤ × ℤ) : Tile := ⟨2, 2, fun _ _ => p.1.toNat⟩

/-- Witness for `mosaic_order_independent_of_nonneg_offsets`: with the
projected center at the world origin every offset is non-negative, and
swapping the two placed tiles leaves the mosaic unchanged. -/
theorem mosaic_order_independent_of_nonneg_offsets_witness :
    ([((0 : ℤ), (0 : ℤ)), (1, 0)].Pairwise (· ≠ ·))
  ∧ placeAll (placedTilesOf cfg9 tileW geoOrigin [(0, 0), (1, 0)]) base0
      = placeAll (placedTilesOf cfg9 tileW geoOrigin [(1, 0), (0, 0)]) base0 := by
  constructor
  · decide
  · exact mosaic_order_independent_of_nonneg_offsets cfg9 tileW geoOrigin
      [(0, 0), (1, 0)] (by decide)
      (fun p _ => ⟨rfl, rfl⟩)
      (fun p hp => by
        fin_cases hp <;>
          constructor <;>
            (unfold tileOffset geoOrigin cfg9; norm_num))
      (placedTilesOf cfg9 tileW geoOrigin [(1, 0), (0, 0)])
      (List.Perm.map _ (by decide))
      base0

/-! ## Geometry drawing (C3)

From `src/snapr/src/drawing/geometry/line.rs` and `polygon.rs` (the
`Styled` drawing variant).  `tiny_skia` (the drawing-primitives
collaborator) is modelled at the interface: a path is its verb list;
`PathBuilder::finish` returns `None` exactly when the builder is empty or
holds a single verb (a lone `move_to`) — with `i32` pixel coordinates the
bounds computation of `finish` cannot fail; pixel writes become an
abstract command trace. -/

inductive Verb where
  | moveTo (x y : ℤ)
  | lineTo (x y : ℤ)
  | close
  | circle (x y : ℤ) (r : ℚ)
deriving DecidableEq

/-- Model of `tiny_skia::PathBuilder::finish`. -/
def pathFinish (verbs : List Verb) : Option (List Verb) :=
  if verbs.length ≤ 1 then none else some verbs

/-- The `move_to`/`line_to` loop of `Styled<LineString>::draw` and
`Styled<Polygon>::draw`: the first projected point opens the contour,
the rest extend it. -/
def buildPolyline : List (ℤ × ℤ) → List Verb
  | [] => []
  | p :: rest => Verb.moveTo p.1 p.2 :: rest.map (fun q => Verb.lineTo q.1 q.2)

/-- Model of `PathBuilder::close`: a no-op on an empty builder. -/
def closePath (verbs : List Verb) : List Verb :=
  if verbs = [] then verbs else verbs ++ [Verb.close]

/-- Function `Shape::to_path` (`point.rs`): `push_circle` pushes a circle contour
when the radius is positive (and finite); otherwise the builder stays
empty and `finish` yields `PathConstruction`. -/
def shapeToPath (s : Shape) (x y : ℤ) : Except Error (List Verb) :=
  if 0 < s.radius then .ok [Verb.circle x y s.radius] else .error Error.pathConstruction

/-- The pixel-write operations issued to the drawing collaborator. -/
inductive Cmd where
  | fillPath (path : List Verb) (color : SkColor) (anti_alias : Bool)
  | strokePath (path : List Verb) (color : SkColor) (anti_alias : Bool) (width : ℚ)
  | renderSvg (id : ℕ) (x y : ℤ)

/-- The render context handed to each draw call: configuration, zoom,
projected center and the index of the geometry being drawn. -/
structure Context where
  tile_size : ℕ
  width : ℕ
  height : ℕ
  zoom : ℕ
  center : GeoPoint
  index : ℕ

/-- Modelled from the spec: the `Context::epsg_4326_to_pixel` projection
helper called by the `Styled` draw routines is not among the sources
under `src/` (only its callers are); spec §4.1 specifies `geoToPixel` as
the single conversion path, the formula implemented by
`Snapper::epsg_4326_to_pixel`. -/
noncomputable def Context.pixelOf (ctx : Context) (p : GeoPoint) : ℤ × ℤ :=
  epsg_4326_to_pixel ctx.tile_size ctx.width ctx.height ctx.zoom ctx.center p

namespace Drawing

/-- The `LineStyle` / `LineStringStyle` records of `geometry/line.rs` (the macro
`impl_line_style!` generates the identical pair); the optional dynamic
`effect` closure is passed separately to the draw routine, which mirrors
the code resolving `style` through `effect.apply(style, inner, context)`
before any drawing. -/
structure LineStyle where
  color_options : ColorOptions
  point_style : PointStyle
  width : ℚ

structure LineStringStyle where
  color_options : ColorOptions
  point_style : PointStyle
  width : ℚ

/-- The `PolygonStyle` record of `geometry/polygon.rs`. -/
structure PolygonStyle where
  color_options : ColorOptions
  line_style : LineStringStyle
  point_style : PointStyle

/-- Point drawing (`point.rs`): project, then either render the embedded
vector fragment, or build the shape path (fallible), fill it, stroke the
optional border, and render the optional label.  The external SVG
renderer is modelled as succeeding. -/
noncomputable def drawPoint (style : PointStyle) (ctx : Context) (p : GeoPoint) :
    Except Error (List Cmd) :=
  match style.representation with
  | .svg markup => .ok [Cmd.renderSvg markup (ctx.pixelOf p).1 (ctx.pixelOf p).2]
  | .shape s =>
    match shapeToPath s (ctx.pixelOf p).1 (ctx.pixelOf p).2 with
    | .error e => .error e
    | .ok path =>
      .ok ([Cmd.fillPath path style.color_options.foreground style.color_options.anti_alias]
        ++ (match style.color_options.border with
            | some b =>
              [Cmd.strokePath path style.color_options.background
                style.color_options.anti_alias b]
            | none => [])
        ++ (match style.label with
            | some l => [Cmd.renderSvg l.id (ctx.pixelOf p).1 (ctx.pixelOf p).2]
            | none => []))

/-- The `points().enumerate().try_for_each(..)` vertex loop shared by the
`LineString` and `Polygon` draw routines: each vertex is drawn as a
styled point with the running index in the context. -/
noncomputable def drawVertices (style : PointStyle) (ctx : Context) :
    List GeoPoint → ℕ → Except Error (List Cmd)
  | [], _ => .ok []
  | p :: rest, i =>
    match drawPoint style { ctx with index := i } p with
    | .error e => .error e
    | .ok cmds =>
      match drawVertices style ctx rest (i + 1) with
      | .error e => .error e
      | .ok more => .ok (cmds ++ more)

/-- Routine `Styled<LineString>::draw` (`geometry/line.rs`, lines 143-217):
the polyline path is built from the projected vertices; when
`PathBuilder::finish` succeeds the border (if any) and foreground strokes
are issued — when it fails (`if let Some`) the strokes are silently
skipped; the vertices are then drawn as styled points either way. -/
noncomputable def drawLineString
    (effect : Option (LineStringStyle → List GeoPoint → Context → LineStringStyle))
    (style : LineStringStyle) (ctx : Context) (ls : List GeoPoint) :
    Except Error (List Cmd) :=
  let resolved := match effect with
    | some e => e style ls ctx
    | none => style
  let verbs := buildPolyline (ls.map (fun p => ctx.pixelOf p))
  let strokes := match pathFinish verbs with
    | some path =>
      (match resolved.color_options.border with
        | some b =>
          [Cmd.strokePath path resolved.color_options.background
            resolved.color_options.anti_alias b]
        | none => [])
        ++ [Cmd.strokePath path resolved.color_options.foreground
              resolved.color_options.anti_alias resolved.width]
    | none => []
  match drawVertices resolved.point_style ctx ls 0 with
  | .error e => .error e
  | .ok vcmds => .ok (strokes ++ vcmds)

/-- Routine `Styled<Line>::draw` (`geometry/line.rs`, lines 56-138): the two-verb
path is built and `finish().ok_or(Error::PathConstruction)?` makes a
failed path construction fatal; then the strokes are issued and the two
endpoints are drawn as styled points with indices `0` and `1`. -/
noncomputable def drawLine
    (effect : Option (LineStyle → (GeoPoint × GeoPoint) → Context → LineStyle))
    (style : LineStyle) (ctx : Context) (line : GeoPoint × GeoPoint) :
    Except Error (List Cmd) :=
  let resolved := match effect with
    | some e => e style line ctx
    | none => style
  let verbs := [Verb.moveTo (ctx.pixelOf line.1).1 (ctx.pixelOf line.1).2,
    Verb.lineTo (ctx.pixelOf line.2).1 (ctx.pixelOf line.2).2]
  match pathFinish verbs with
  | none => .error Error.pathConstruction
  | some path =>
    let strokes :=
      (match resolved.color_options.border with
        | some b =>
          [Cmd.strokePath path resolved.color_options.background
            resolved.color_options.anti_alias b]
        | none => [])
        ++ [Cmd.strokePath path resolved.color_options.foreground
              resolved.color_options.anti_alias resolved.width]
    match drawPoint resolved.point_style { ctx with index := 0 } line.1 with
    | .error e => .error e
    | .ok c1 =>
      match drawPoint resolved.point_style { ctx with index := 1 } line.2 with
      | .error e => .error e
      | .ok c2 => .ok (strokes ++ c1 ++ c2)

/-- Routine `Styled<Polygon>::draw` (`geometry/polygon.rs`, lines 49-142): the
closed exterior path is built; when `finish` succeeds the fill, the
optional border stroke and the outline stroke (both from the nested
`line_style`) are issued — when it fails (`if let Some`) they are
silently skipped; the exterior vertices are then drawn as styled
points. -/
noncomputable def drawPolygon
    (effect : Option (PolygonStyle → List GeoPoint → Context → PolygonStyle))
    (style : PolygonStyle) (ctx : Context) (exterior : List GeoPoint) :
    Except Error (List Cmd) :=
  let resolved := match effect with
    | some e => e style exterior ctx
    | none => style
  let verbs := closePath (buildPolyline (exterior.map (fun p => ctx.pixelOf p)))
  let pathCmds := match pathFinish verbs with
    | some path =>
      [Cmd.fillPath path resolved.color_options.foreground
        resolved.color_options.anti_alias]
        ++ (match resolved.line_style.color_options.border with
            | some b =>
              [Cmd.strokePath path resolved.line_style.color_options.background
                resolved.line_style.color_options.anti_alias b]
            | none => [])
        ++ [Cmd.strokePath path resolved.line_style.color_options.foreground
              resolved.line_style.color_options.anti_alias resolved.line_style.width]
    | none => []
  match drawVertices resolved.point_style ctx exterior 0 with
  | .error e => .error e
  | .ok vcmds => .ok (pathCmds ++ vcmds)

end Drawing

/-! ### Claim theorems: degenerate paths (C3) -/

/-- Default `ColorOptions::default` (`style.rs`). -/
def defaultColorOptions : ColorOptions :=
  ⟨⟨248, 248, 248, 255⟩, ⟨26, 26, 26, 255⟩, true, some 1⟩

/-- Default `PointStyle::default` (`point.rs`): default colors, a circle of
radius `4`, no label. -/
def defaultPointStyle : PointStyle :=
  ⟨defaultColorOptions, .shape ⟨4⟩, none⟩

/-- Default `LineStringStyle::default` (`line.rs`): foreground `(196,196,196)`,
border `4`, width `3`, default point style, no effect. -/
def defaultLineStringStyle : Drawing.LineStringStyle :=
  ⟨{ defaultColorOptions with
      foreground := ⟨196, 196, 196, 255⟩
      border := some 4 },
   defaultPointStyle, 3⟩

/-- A default-ish render context: tile size `256`, output `800 × 600`,
zoom `0`, centered on the origin. -/
noncomputable def ctx0 : Context :=
  ⟨256, 800, 600, 0, geoOrigin, 0⟩

/-- C3 (counterexample): a degenerate polyline is not fatal.  Drawing a
single-point `LineString` with the default style succeeds — the failed
path construction is silently skipped (`if let Some`) and the vertex
marker is still drawn — instead of returning `PathConstruction`. -/
theorem degenerate_linestring_draw_succeeds :
    ([(⟨0, 0⟩ : GeoPoint)].length < 2)
  ∧ (Drawing.drawLineString none defaultLineStringStyle ctx0 [⟨0, 0⟩]).isOk = true
  ∧ Drawing.drawLineString none defaultLineStringStyle ctx0 [⟨0, 0⟩]
      ≠ Except.error Error.pathConstruction := by
  have hsp : ∀ x y : ℤ, shapeToPath ⟨4⟩ x y = Except.ok [Verb.circle x y 4] := by
    intro x y
    unfold shapeToPath
    rw [if_pos (by norm_num)]
  refine ⟨by decide, ?_, ?_⟩ <;>
    simp [Drawing.drawLineString, Drawing.drawVertices, Drawing.drawPoint,
      defaultLineStringStyle, defaultPointStyle, defaultColorOptions,
      buildPolyline, pathFinish, hsp, Except.isOk, Except.toBool]

/-- C3 (amended): only the `Line` draw routine treats a failed path
construction as fatal (its two-verb path in fact always constructs);
the `LineString` routine with fewer than two points skips the strokes
and draws only the vertex markers, and the `Polygon` routine with an
empty exterior ring draws nothing — both succeed rather than returning
`PathConstruction`. -/
theorem degenerate_path_is_skipped_not_fatal :
    (∀ (style : Drawing.LineStringStyle) (ctx : Context) (ls : List GeoPoint),
      ls.length ≤ 1 →
      Drawing.drawLineString none style ctx ls
        = Drawing.drawVertices style.point_style ctx ls 0)
  ∧ (∀ (style : Drawing.PolygonStyle) (ctx : Context),
      Drawing.drawPolygon none style ctx [] = Except.ok [])
  ∧ (∀ x1 y1 x2 y2 : ℤ,
      pathFinish [Verb.moveTo x1 y1, Verb.lineTo x2 y2]
        = some [Verb.moveTo x1 y1, Verb.lineTo x2 y2]) := by
  refine ⟨?_, ?_, ?_⟩
  · intro style ctx ls hlen
    match ls with
    | [] =>
      simp [Drawing.drawLineString, Drawing.drawVertices, buildPolyline, pathFinish]
    | [p] =>
      simp only [Drawing.drawLineString, Drawing.drawVertices, buildPolyline,
        List.map_cons, List.map_nil, pathFinish, List.length_cons, List.length_nil]
      rcases h : Drawing.drawPoint style.point_style { ctx with index := 0 } p with e | cmds
      · simp [h]
      · simp [h]
    | p :: q :: rest =>
      simp at hlen
  · intro style ctx
    simp [Drawing.drawPolygon, Drawing.drawVertices, buildPolyline, closePath, pathFinish]
  · intro x1 y1 x2 y2
    rfl

/-- Witness for `degenerate_path_is_skipped_not_fatal`: the single-point
line string. -/
theorem degenerate_path_is_skipped_not_fatal_witness :
    ([(⟨0, 0⟩ : GeoPoint)].length ≤ 1)
  ∧ Drawing.drawLineString none defaultLineStringStyle ctx0 [⟨0, 0⟩]
      = Drawing.drawVertices defaultLineStringStyle.point_style ctx0 [⟨0, 0⟩] 0 :=
  ⟨by decide,
    degenerate_path_is_skipped_not_fatal.1 defaultLineStringStyle ctx0
      [⟨0, 0⟩] (by decide)⟩

end Snapr
